import Mathlib

/-!
Verification development for the langnet-spec repository.

Part 1 embeds the ruff shim (src/vendor/ruff-shim/ruff_shim.py): the PATH
environment value is modelled as its character sequence, split and joined on
the path separator character exactly as the Python code does with
str.split/str.join.

Part 2 models, from the specification, the schema-driven binary/JSON dual
codec (the Record Codec Engine of spec sections 2-4) that the example
scripts exercise as a black box: the generated protobuf code is not part of
the visible material, so the codec definitions follow the spec's words.

Part 3 embeds src/examples/python_writer.py: the sample message
constructors, the binary/JSON file-writing functions and the size
comparison in main, with serialization provided by the Part 2 codec.
-/

/-! ### Part 1: the ruff shim -/

/-- Character-level model of a string, used for the PATH value so that the
splitting and joining done by the shim can be reasoned about directly. -/
abbrev Chars := List Char

/-- Model of Python str.split(sep) for a single-character separator:
splitting the empty string yields one empty part, and each separator
occurrence starts a new part. -/
def splitSep (sep : Char) : Chars → List Chars
  | [] => [[]]
  | c :: rest =>
    if c = sep then [] :: splitSep sep rest
    else
      match splitSep sep rest with
      | [] => [[c]]
      | p :: ps => (c :: p) :: ps

/-- Model of Python sep.join(parts): parts interleaved with the separator. -/
def joinSep (sep : Char) : List Chars → Chars
  | [] => []
  | [p] => p
  | p :: ps => p ++ sep :: joinSep sep ps

/-- The venv bin directory os.path.join(sys.prefix, "bin") computed by the
shim. -/
def venvBin (sysPfx : Chars) : Chars := sysPfx ++ ('/' :: 'b' :: 'i' :: 'n' :: [])

/-- The filter the shim applies to the PATH entries:
[p for p in PATH.split(os.pathsep) if p and p != venv_bin]. -/
def shimKeep (venv : Chars) (p : Chars) : Bool := !(p == []) && !(p == venv)

/-- The new PATH value computed by the shim from the old one:
os.pathsep.join([p for p in PATH.split(os.pathsep) if p and p != venv_bin]).
The POSIX path separator is the colon. -/
def ruffShimNewPath (sysPfx : Chars) (path : Chars) : Chars :=
  joinSep ':' ((splitSep ':' path).filter (shimKeep (venvBin sysPfx)))

/-- The process environment, a map from variable names to optional values. -/
abbrev Env := String → Option Chars

/-- Result of running the shim's main: the environment at the moment of the
exec call, the program executed, and the argv passed to it. -/
structure ShimResult where
  env : Env
  execProg : String
  execArgv : List String
  deriving Inhabited

/-- Embedding of main() in src/vendor/ruff-shim/ruff_shim.py: reads PATH
(defaulting to empty as os.environ.get("PATH", "") does), filters out the
venv bin directory and empty entries, stores the rejoined value back in
PATH, then execs "ruff" with ["ruff", *sys.argv[1:]]. -/
def ruffShimMain (sysPfx : Chars) (env : Env) (argvTail : List String) : ShimResult :=
  let pathVal := (env "PATH").getD []
  let newPath := ruffShimNewPath sysPfx pathVal
  { env := fun k => if k = "PATH" then some newPath else env k
    execProg := "ruff"
    execArgv := "ruff" :: argvTail }

theorem splitSep_ne_nil (sep : Char) (l : Chars) : splitSep sep l ≠ [] := by
  induction l with
  | nil => simp [splitSep]
  | cons c rest ih =>
    simp only [splitSep]
    split
    · simp
    · cases h : splitSep sep rest <;> simp

theorem not_mem_of_mem_splitSep (sep : Char) (l : Chars) :
    ∀ p ∈ splitSep sep l, sep ∉ p := by
  induction l with
  | nil => intro p hp; simp [splitSep] at hp; simp [hp]
  | cons c rest ih =>
    intro p hp
    simp only [splitSep] at hp
    by_cases hc : c = sep
    · simp [hc] at hp
      rcases hp with h | h
      · simp [h]
      · exact ih p h
    · simp [hc] at hp
      cases h : splitSep sep rest with
      | nil => exact absurd h (splitSep_ne_nil sep rest)
      | cons q qs =>
        rw [h] at hp
        simp at hp
        rcases hp with h1 | h1
        · subst h1
          intro hmem
          simp at hmem
          rcases hmem with h2 | h2
          · exact hc h2.symm
          · exact ih q (by rw [h]; simp) h2
        · exact ih p (by rw [h]; simp [h1])

theorem splitSep_of_not_mem (sep : Char) (p : Chars) (h : sep ∉ p) :
    splitSep sep p = [p] := by
  induction p with
  | nil => simp [splitSep]
  | cons c rest ih =>
    simp at h
    simp only [splitSep]
    rw [if_neg (fun hc => h.1 hc.symm), ih h.2]

theorem splitSep_append_sep (sep : Char) (p t : Chars) (h : sep ∉ p) :
    splitSep sep (p ++ sep :: t) = p :: splitSep sep t := by
  induction p with
  | nil => simp [splitSep]
  | cons c rest ih =>
    simp at h
    simp only [List.cons_append, splitSep, List.append_eq]
    rw [if_neg (fun hc => h.1 hc.symm), ih h.2]

theorem splitSep_joinSep (sep : Char) (L : List Chars) (hne : L ≠ [])
    (h : ∀ p ∈ L, sep ∉ p) : splitSep sep (joinSep sep L) = L := by
  induction L with
  | nil => exact absurd rfl hne
  | cons p ps ih =>
    cases ps with
    | nil =>
      simp only [joinSep]
      exact splitSep_of_not_mem sep p (h p (by simp))
    | cons q qs =>
      have hj : joinSep sep (p :: q :: qs) = p ++ sep :: joinSep sep (q :: qs) := rfl
      rw [hj, splitSep_append_sep sep p _ (h p (by simp))]
      rw [ih (by simp) (fun r hr => h r (by simp [hr]))]

theorem venvBin_ne_nil (sysPfx : Chars) : venvBin sysPfx ≠ [] := by
  simp [venvBin]

theorem shimKeep_iff (venv p : Chars) :
    shimKeep venv p = true ↔ ¬p = [] ∧ ¬p = venv := by
  simp [shimKeep]

theorem venvBin_not_mem_newPathParts (sysPfx path : Chars) :
    venvBin sysPfx ∉ splitSep ':' (ruffShimNewPath sysPfx path) := by
  unfold ruffShimNewPath
  set L := (splitSep ':' path).filter (shimKeep (venvBin sysPfx)) with hL
  by_cases hne : L = []
  · rw [hne]
    show venvBin sysPfx ∉ splitSep ':' (joinSep ':' [])
    simp only [joinSep, splitSep]
    intro hmem
    simp at hmem
    exact venvBin_ne_nil sysPfx hmem
  · rw [splitSep_joinSep ':' L hne]
    · intro hmem
      rw [hL] at hmem
      have := (List.mem_filter.mp hmem).2
      rw [shimKeep_iff] at this
      exact this.2 rfl
    · intro p hp
      rw [hL] at hp
      exact not_mem_of_mem_splitSep ':' path p (List.mem_filter.mp hp).1

/-- C1: for every initial PATH value (and sys.prefix and argument list),
running the shim's main removes the virtual-environment bin directory from
PATH — it is absent from the entry list of the PATH value in force at the
exec — and replaces the process with the external "ruff" binary, passing
the shim's own command-line arguments through unchanged and in order. -/
theorem ruffShim_removes_venvBin_and_execs_ruff
    (sysPfx : Chars) (env : Env) (argvTail : List String) :
    venvBin sysPfx ∉
      splitSep ':' (((ruffShimMain sysPfx env argvTail).env "PATH").getD [])
    ∧ (ruffShimMain sysPfx env argvTail).execProg = "ruff"
    ∧ (ruffShimMain sysPfx env argvTail).execArgv = "ruff" :: argvTail := by
  refine ⟨?_, rfl, rfl⟩
  show venvBin sysPfx ∉
      splitSep ':' ((some (ruffShimNewPath sysPfx ((env "PATH").getD []))).getD [])
  exact venvBin_not_mem_newPathParts sysPfx ((env "PATH").getD [])

/-- C10: the shim's PATH rewrite touches nothing else: the new PATH is the
join of the old entries with every occurrence of the venv bin directory and
every empty entry removed, every other entry kept, relative order preserved
(the new entry list is a sublist of the old), and every environment
variable other than PATH is unchanged before the exec. -/
theorem ruffShim_frame (sysPfx : Chars) (env : Env) (argvTail : List String) :
    ((ruffShimMain sysPfx env argvTail).env "PATH" =
      some (joinSep ':'
        ((splitSep ':' ((env "PATH").getD [])).filter (shimKeep (venvBin sysPfx)))))
    ∧ venvBin sysPfx ∉
        (splitSep ':' ((env "PATH").getD [])).filter (shimKeep (venvBin sysPfx))
    ∧ [] ∉ (splitSep ':' ((env "PATH").getD [])).filter (shimKeep (venvBin sysPfx))
    ∧ (∀ p ∈ splitSep ':' ((env "PATH").getD []), p ≠ [] → p ≠ venvBin sysPfx →
        p ∈ (splitSep ':' ((env "PATH").getD [])).filter (shimKeep (venvBin sysPfx)))
    ∧ ((splitSep ':' ((env "PATH").getD [])).filter
        (shimKeep (venvBin sysPfx))).Sublist (splitSep ':' ((env "PATH").getD []))
    ∧ (∀ k, k ≠ "PATH" → (ruffShimMain sysPfx env argvTail).env k = env k) := by
  refine ⟨rfl, ?_, ?_, ?_, List.filter_sublist _, ?_⟩
  · intro hmem
    have := (List.mem_filter.mp hmem).2
    rw [shimKeep_iff] at this
    exact this.2 rfl
  · intro hmem
    have := (List.mem_filter.mp hmem).2
    rw [shimKeep_iff] at this
    exact this.1 rfl
  · intro p hp hne hnv
    exact List.mem_filter.mpr ⟨hp, (shimKeep_iff _ p).mpr ⟨hne, hnv⟩⟩
  · intro k hk
    show (if k = "PATH" then _ else env k) = env k
    rw [if_neg hk]

/-! ### Part 2: the Record Codec Engine, modelled from the spec -/

/-- Modelled from the spec (§3, §4.1): a field descriptor's type tag — a
scalar kind (integer), a string, a closed enum with named integer
constants, a nested-message reference carrying the nested field
descriptors, or a repeated marker.  The schema itself (the generated
protobuf code) is not part of the visible material. -/
inductive FKind where
  | kInt : FKind
  | kStr : FKind
  | kEnum (consts : List (String × Nat)) : FKind
  | kMsg (fields : List (Nat × String × FKind)) : FKind
  | kRep (elem : FKind) : FKind

/-- Modelled from the spec (§3): an ordered set of field descriptors, each
with a unique numeric tag, a name and a type tag. -/
abbrev FSchema := List (Nat × String × FKind)

/-- Modelled from the spec (§3, §4.2): a Value Model instance's field
values.  Strings are represented by their byte sequences.  The two
unknown constructors hold fields preserved verbatim during decode when
their tag is not in the schema (§4.3 forward-compatibility): a raw varint
payload or raw length-delimited bytes. -/
inductive Value where
  | vInt (n : Nat)
  | vEnum (n : Nat)
  | vStr (bytes : List Nat)
  | vMsg (fields : List (Nat × Value))
  | vRep (elems : List Value)
  | vUnknownV (n : Nat)
  | vUnknownL (raw : List Nat)

/-- Fueled worker for varint encoding; any fuel at least the value being
encoded suffices, so the fallback branch is unreachable from encodeVarint. -/
def encodeVarintAux : Nat → Nat → List Nat
  | 0, n => [n]
  | fuel + 1, n =>
    if n < 128 then [n] else (n % 128 + 128) :: encodeVarintAux fuel (n / 128)

/-- Modelled from the spec (§4.3): base-128 varint encoding of an integer,
least significant group first, high bit marking continuation. -/
def encodeVarint (n : Nat) : List Nat := encodeVarintAux n n

theorem encodeVarintAux_irrel (f1 : Nat) : ∀ f2 n, n ≤ f1 → n ≤ f2 →
    encodeVarintAux f1 n = encodeVarintAux f2 n := by
  induction f1 with
  | zero =>
    intro f2 n h1 _
    interval_cases n
    cases f2 <;> simp [encodeVarintAux]
  | succ f ih =>
    intro f2 n h1 h2
    cases f2 with
    | zero =>
      interval_cases n
      simp [encodeVarintAux]
    | succ f2' =>
      simp only [encodeVarintAux]
      split
      · rfl
      · next h =>
        have hd : n / 128 ≤ f := by
          have := Nat.div_lt_self (show 0 < n by omega) (show 1 < 128 by omega)
          omega
        have hd2 : n / 128 ≤ f2' := by
          have := Nat.div_lt_self (show 0 < n by omega) (show 1 < 128 by omega)
          omega
        rw [ih f2' (n / 128) hd hd2]

theorem encodeVarint_eq (n : Nat) :
    encodeVarint n =
      if n < 128 then [n] else (n % 128 + 128) :: encodeVarint (n / 128) := by
  show encodeVarintAux n n = _
  cases hn : n with
  | zero => simp [encodeVarintAux]
  | succ m =>
    simp only [encodeVarintAux]
    split
    · rfl
    · next h =>
      have hd : (m + 1) / 128 ≤ m := by
        have := Nat.div_lt_self (show 0 < m + 1 by omega) (show 1 < 128 by omega)
        omega
      rw [encodeVarintAux_irrel m ((m + 1) / 128) ((m + 1) / 128) hd (Nat.le_refl _)]
      rfl

/-- Modelled from the spec (§4.3): varint decoding, returning the value and
the remaining bytes, or failing on truncated input. -/
def decodeVarint : List Nat → Option (Nat × List Nat)
  | [] => none
  | b :: bs =>
    if b < 128 then some (b, bs)
    else
      match decodeVarint bs with
      | some (n, rest) => some (b - 128 + 128 * n, rest)
      | none => none

/-- Modelled from the spec (§4.3): the wire kind a field's declared type
uses — 0 for varint payloads, 2 for length-delimited payloads. -/
def wireOfKind : FKind → Nat
  | .kInt => 0
  | .kEnum _ => 0
  | .kStr => 2
  | .kMsg _ => 2
  | .kRep _ => 2

/-- The wire kind a stored value is encoded with. -/
def wireOfValue : Value → Nat
  | .vInt _ => 0
  | .vEnum _ => 0
  | .vUnknownV _ => 0
  | .vStr _ => 2
  | .vMsg _ => 2
  | .vRep _ => 2
  | .vUnknownL _ => 2

mutual

/-- Modelled from the spec (§4.3): the payload of one value — a varint for
integers and enums, length-prefixed bytes for strings, nested messages and
repeated-entry sequences; preserved unknown fields re-emit their raw
payload. -/
def encodeElem : Value → List Nat
  | .vInt n => encodeVarint n
  | .vEnum n => encodeVarint n
  | .vUnknownV n => encodeVarint n
  | .vStr bs => encodeVarint bs.length ++ bs
  | .vUnknownL raw => encodeVarint raw.length ++ raw
  | .vMsg fs => encodeVarint (encodeFields fs).length ++ encodeFields fs
  | .vRep vs => encodeVarint (encodeElems vs).length ++ encodeElems vs
termination_by structural v => v

/-- Modelled from the spec (§4.3): a message body — for each present field
in stored order, a (tag, wire-kind) varint header followed by the payload. -/
def encodeFields : List (Nat × Value) → List Nat
  | [] => []
  | (t, v) :: fs =>
    encodeVarint (t * 8 + wireOfValue v) ++ encodeElem v ++ encodeFields fs
termination_by structural fs => fs

/-- Modelled from the spec (§4.3): the entries of a repeated field,
concatenated inside one length-prefixed block. -/
def encodeElems : List Value → List Nat
  | [] => []
  | v :: vs => encodeElem v ++ encodeElems vs
termination_by structural vs => vs

end

/-- Modelled from the spec (§4.1): fieldByTag — the first descriptor with
the given tag, or not found. -/
def lookupField : FSchema → Nat → Option (String × FKind)
  | [], _ => none
  | (t, nm, k) :: s, tag => if tag = t then some (nm, k) else lookupField s tag

mutual

/-- Modelled from the spec (§3): a stored value's type matches its
descriptor's declared kind.  Enum values are raw integers (unknown
integers are legal, §3); string bytes are bytes. -/
def validElem : FKind → Value → Bool
  | .kInt, .vInt _ => true
  | .kEnum _, .vEnum _ => true
  | .kStr, .vStr bs => bs.all (fun b => b < 256)
  | .kMsg s, .vMsg fs => validFields s fs
  | .kRep k, .vRep vs => validElems k vs
  | _, _ => false
termination_by structural k v => v

/-- Every present field's tag resolves in the schema and its value matches
the resolved kind. -/
def validFields : FSchema → List (Nat × Value) → Bool
  | _, [] => true
  | s, (t, v) :: fs =>
    (match lookupField s t with
     | some (_, k) => validElem k v
     | none => false) && validFields s fs
termination_by structural s fs => fs

/-- Every entry of a repeated field matches the element kind. -/
def validElems : FKind → List Value → Bool
  | _, [] => true
  | k, v :: vs => validElem k v && validElems k vs
termination_by structural k vs => vs

end

mutual

/-- Recursion depth needed by the fueled binary decoder on this value's
encoding. -/
def costElem : Value → Nat
  | .vMsg fs => costFields fs + 1
  | .vRep vs => costElems vs + 1
  | _ => 1
termination_by structural v => v

/-- Recursion depth needed to decode this field list's encoding. -/
def costFields : List (Nat × Value) → Nat
  | [] => 1
  | (_, v) :: fs => max (costElem v) (costFields fs) + 1
termination_by structural fs => fs

/-- Recursion depth needed to decode this entry block's encoding. -/
def costElems : List Value → Nat
  | [] => 1
  | v :: vs => max (costElem v) (costElems vs) + 1
termination_by structural vs => vs

end

mutual

/-- Modelled from the spec (§4.3): decode one payload of the given declared
kind from the front of the byte stream; None is the DecodeError of §7
(truncated payload or inconsistent length prefix).  Fueled to bound
recursion; any fuel at least the encoding's cost suffices. -/
def decodeElem : Nat → FKind → List Nat → Option (Value × List Nat)
  | 0, _, _ => none
  | Nat.succ fuel, k, bs =>
    match k with
    | .kInt =>
      match decodeVarint bs with
      | some (n, rest) => some (.vInt n, rest)
      | none => none
    | .kEnum _ =>
      match decodeVarint bs with
      | some (n, rest) => some (.vEnum n, rest)
      | none => none
    | .kStr =>
      match decodeVarint bs with
      | some (len, rest) =>
        if len ≤ rest.length then some (.vStr (rest.take len), rest.drop len)
        else none
      | none => none
    | .kMsg s =>
      match decodeVarint bs with
      | some (len, rest) =>
        if len ≤ rest.length then
          match decodeFields fuel s (rest.take len) with
          | some fs => some (.vMsg fs, rest.drop len)
          | none => none
        else none
      | none => none
    | .kRep k' =>
      match decodeVarint bs with
      | some (len, rest) =>
        if len ≤ rest.length then
          match decodeElems fuel k' (rest.take len) with
          | some vs => some (.vRep vs, rest.drop len)
          | none => none
        else none
      | none => none
termination_by structural f k bs => f

/-- Modelled from the spec (§4.3): decode a message body sequentially — for
each header, a recognized tag is decoded by its declared kind (failing on a
wire-kind inconsistent with that kind), an unrecognized tag's raw payload
is preserved verbatim rather than erroring, and an unknown wire kind is a
DecodeError. -/
def decodeFields : Nat → FSchema → List Nat → Option (List (Nat × Value))
  | 0, _, _ => none
  | Nat.succ fuel, s, bs =>
    if bs = [] then some []
    else
      match decodeVarint bs with
      | some (hdr, rest) =>
        match lookupField s (hdr / 8) with
        | some (_, k) =>
          if hdr % 8 = wireOfKind k then
            match decodeElem fuel k rest with
            | some (v, rest') =>
              match decodeFields fuel s rest' with
              | some fs => some ((hdr / 8, v) :: fs)
              | none => none
            | none => none
          else none
        | none =>
          if hdr % 8 = 0 then
            match decodeVarint rest with
            | some (n, rest') =>
              match decodeFields fuel s rest' with
              | some fs => some ((hdr / 8, .vUnknownV n) :: fs)
              | none => none
            | none => none
          else if hdr % 8 = 2 then
            match decodeVarint rest with
            | some (len, rest') =>
              if len ≤ rest'.length then
                match decodeFields fuel s (rest'.drop len) with
                | some fs => some ((hdr / 8, .vUnknownL (rest'.take len)) :: fs)
                | none => none
              else none
            | none => none
          else none
      | none => none
termination_by structural f s bs => f

/-- Modelled from the spec (§4.3): decode the entries of a repeated field's
block until it is exhausted. -/
def decodeElems : Nat → FKind → List Nat → Option (List Value)
  | 0, _, _ => none
  | Nat.succ fuel, k, bs =>
    if bs = [] then some []
    else
      match decodeElem fuel k bs with
      | some (v, rest) =>
        match decodeElems fuel k rest with
        | some vs => some (v :: vs)
        | none => none
      | none => none
termination_by structural f k bs => f

end

/-- Modelled from the spec (§4.3, §6): serialize a Value Model instance (a
message's present fields) to the binary wire format. -/
def encodeMessage (fs : List (Nat × Value)) : List Nat := encodeFields fs

/-- Modelled from the spec (§4.3, §6): decode a binary message against a
schema.  The fuel bound of twice the input length plus one is always
sufficient for inputs produced by the encoder. -/
def decodeMessage (s : FSchema) (bytes : List Nat) : Option (List (Nat × Value)) :=
  decodeFields (2 * bytes.length + 1) s bytes

theorem decodeVarint_encodeVarint (n : Nat) (rest : List Nat) :
    decodeVarint (encodeVarint n ++ rest) = some (n, rest) := by
  induction n using Nat.strong_induction_on generalizing rest with
  | _ n ih =>
    rw [encodeVarint_eq]
    split
    · next h => simp [decodeVarint, h]
    · next h =>
      have h128 : ¬(n % 128 + 128 < 128) := by omega
      simp only [List.cons_append, decodeVarint, if_neg h128, List.append_eq]
      rw [ih (n / 128) (Nat.div_lt_self (by omega) (by omega))]
      have heq : n % 128 + 128 - 128 + 128 * (n / 128) = n := by
        have := Nat.mod_add_div n 128
        omega
      simp only [List.append_eq]
      simp
      omega

theorem encodeVarint_length_pos (n : Nat) : 0 < (encodeVarint n).length := by
  rw [encodeVarint_eq]
  split <;> simp

theorem encodeElem_length_pos (v : Value) : 0 < (encodeElem v).length := by
  cases v with
  | vInt n => exact encodeVarint_length_pos n
  | vEnum n => exact encodeVarint_length_pos n
  | vUnknownV n => exact encodeVarint_length_pos n
  | vStr bs =>
    have := encodeVarint_length_pos bs.length
    simp only [encodeElem, List.length_append]
    omega
  | vUnknownL raw =>
    have := encodeVarint_length_pos raw.length
    simp only [encodeElem, List.length_append]
    omega
  | vMsg fs =>
    have := encodeVarint_length_pos (encodeFields fs).length
    simp only [encodeElem, List.length_append]
    omega
  | vRep vs =>
    have := encodeVarint_length_pos (encodeElems vs).length
    simp only [encodeElem, List.length_append]
    omega

theorem wireOfValue_eq_wireOfKind (k : FKind) (v : Value)
    (hv : validElem k v = true) : wireOfValue v = wireOfKind k := by
  cases k <;> cases v <;> simp_all [validElem, wireOfValue, wireOfKind]

theorem wireOfValue_lt_8 (v : Value) : wireOfValue v < 8 := by
  cases v <;> simp [wireOfValue]

mutual

theorem costElem_le (v : Value) : costElem v ≤ 2 * (encodeElem v).length := by
  cases v with
  | vMsg fs =>
    have h := costFields_le fs
    have hp := encodeVarint_length_pos (encodeFields fs).length
    simp only [costElem, encodeElem, List.length_append]
    omega
  | vRep vs =>
    have h := costElems_le vs
    have hp := encodeVarint_length_pos (encodeElems vs).length
    simp only [costElem, encodeElem, List.length_append]
    omega
  | vInt n =>
    have := encodeVarint_length_pos n
    simp only [costElem, encodeElem]
    omega
  | vEnum n =>
    have := encodeVarint_length_pos n
    simp only [costElem, encodeElem]
    omega
  | vUnknownV n =>
    have := encodeVarint_length_pos n
    simp only [costElem, encodeElem]
    omega
  | vStr bs =>
    have := encodeVarint_length_pos bs.length
    simp only [costElem, encodeElem, List.length_append]
    omega
  | vUnknownL raw =>
    have := encodeVarint_length_pos raw.length
    simp only [costElem, encodeElem, List.length_append]
    omega

theorem costFields_le (fs : List (Nat × Value)) :
    costFields fs ≤ 2 * (encodeFields fs).length + 1 := by
  cases fs with
  | nil => simp [costFields, encodeFields]
  | cons fv fs' =>
    obtain ⟨t, v⟩ := fv
    have h1 := costElem_le v
    have h2 := costFields_le fs'
    have hp := encodeVarint_length_pos (t * 8 + wireOfValue v)
    simp only [costFields, encodeFields, List.length_append]
    omega

theorem costElems_le (vs : List Value) :
    costElems vs ≤ 2 * (encodeElems vs).length + 1 := by
  cases vs with
  | nil => simp [costElems, encodeElems]
  | cons v vs' =>
    have h1 := costElem_le v
    have h2 := costElems_le vs'
    have hp := encodeElem_length_pos v
    simp only [costElems, encodeElems, List.length_append]
    omega

end

mutual

theorem decodeElem_encodeElem (k : FKind) (v : Value) (hv : validElem k v = true)
    (fuel : Nat) (hf : costElem v ≤ fuel) (rest : List Nat) :
    decodeElem fuel k (encodeElem v ++ rest) = some (v, rest) := by
  cases k <;> cases v
  case kInt.vInt n =>
    cases fuel with
    | zero => simp [costElem] at hf
    | succ f => simp [decodeElem, encodeElem, decodeVarint_encodeVarint]
  case kEnum.vEnum cs n =>
    cases fuel with
    | zero => simp [costElem] at hf
    | succ f => simp [decodeElem, encodeElem, decodeVarint_encodeVarint]
  case kStr.vStr bs =>
    cases fuel with
    | zero => simp [costElem] at hf
    | succ f =>
      simp only [encodeElem, decodeElem, List.append_assoc,
        decodeVarint_encodeVarint]
      rw [if_pos (by simp)]
      rw [List.take_left, List.drop_left]
  case kMsg.vMsg s fs =>
    simp only [validElem] at hv
    cases fuel with
    | zero => simp [costElem] at hf
    | succ f =>
      have hffs : costFields fs ≤ f := by
        simp only [costElem] at hf
        omega
      simp only [encodeElem, decodeElem, List.append_assoc,
        decodeVarint_encodeVarint]
      rw [if_pos (by simp)]
      rw [List.take_left, List.drop_left,
        decodeFields_encodeFields s fs hv f hffs]
  case kRep.vRep k' vs =>
    simp only [validElem] at hv
    cases fuel with
    | zero => simp [costElem] at hf
    | succ f =>
      have hfvs : costElems vs ≤ f := by
        simp only [costElem] at hf
        omega
      simp only [encodeElem, decodeElem, List.append_assoc,
        decodeVarint_encodeVarint]
      rw [if_pos (by simp)]
      rw [List.take_left, List.drop_left,
        decodeElems_encodeElems k' vs hv f hfvs]
  all_goals simp [validElem] at hv

theorem decodeFields_encodeFields (s : FSchema) (fs : List (Nat × Value))
    (hv : validFields s fs = true) (fuel : Nat) (hf : costFields fs ≤ fuel) :
    decodeFields fuel s (encodeFields fs) = some fs := by
  cases fs with
  | nil =>
    cases fuel with
    | zero => simp [costFields] at hf
    | succ f => simp [decodeFields, encodeFields]
  | cons fv fs' =>
    obtain ⟨t, v⟩ := fv
    cases fuel with
    | zero => simp [costFields] at hf
    | succ f =>
      simp only [validFields, Bool.and_eq_true] at hv
      obtain ⟨hv1, hv2⟩ := hv
      cases hlk : lookupField s t with
      | none => rw [hlk] at hv1; simp at hv1
      | some nk =>
        obtain ⟨nm, k⟩ := nk
        rw [hlk] at hv1
        have hwv : wireOfValue v = wireOfKind k := wireOfValue_eq_wireOfKind k v hv1
        have hw8 : wireOfKind k < 8 := hwv ▸ wireOfValue_lt_8 v
        have hcost1 : costElem v ≤ f := by
          simp only [costFields] at hf
          omega
        have hcost2 : costFields fs' ≤ f := by
          simp only [costFields] at hf
          omega
        have hne : ¬(encodeVarint (t * 8 + wireOfKind k) ++
            (encodeElem v ++ encodeFields fs') = []) := by
          intro h
          have := encodeVarint_length_pos (t * 8 + wireOfKind k)
          rw [List.append_eq_nil] at h
          simp [h.1] at this
        have hdiv : (t * 8 + wireOfKind k) / 8 = t := by omega
        have hmod : (t * 8 + wireOfKind k) % 8 = wireOfKind k := by omega
        simp only [encodeFields, List.append_assoc]
        rw [hwv]
        simp only [decodeFields, if_neg hne, decodeVarint_encodeVarint, hdiv,
          hmod, hlk, eq_self_iff_true, ite_true,
          decodeElem_encodeElem k v hv1 f hcost1,
          decodeFields_encodeFields s fs' hv2 f hcost2]

theorem decodeElems_encodeElems (k : FKind) (vs : List Value)
    (hv : validElems k vs = true) (fuel : Nat) (hf : costElems vs ≤ fuel) :
    decodeElems fuel k (encodeElems vs) = some vs := by
  cases vs with
  | nil =>
    cases fuel with
    | zero => simp [costElems] at hf
    | succ f => simp [decodeElems, encodeElems]
  | cons v vs' =>
    cases fuel with
    | zero => simp [costElems] at hf
    | succ f =>
      simp only [validElems, Bool.and_eq_true] at hv
      obtain ⟨hv1, hv2⟩ := hv
      have hcost1 : costElem v ≤ f := by
        simp only [costElems] at hf
        omega
      have hcost2 : costElems vs' ≤ f := by
        simp only [costElems] at hf
        omega
      have hne : ¬(encodeElem v ++ encodeElems vs' = []) := by
        intro h
        have := encodeElem_length_pos v
        rw [List.append_eq_nil] at h
        simp [h.1] at this
      simp only [encodeElems, decodeElems, if_neg hne,
        decodeElem_encodeElem k v hv1 f hcost1,
        decodeElems_encodeElems k vs' hv2 f hcost2]

end

/-- Modelled from the spec (§8): the binary round-trip — decoding the
binary encoding of any valid Value Model instance yields the instance back,
structurally equal. -/
theorem decodeMessage_encodeMessage (s : FSchema) (fs : List (Nat × Value))
    (hv : validFields s fs = true) :
    decodeMessage s (encodeMessage fs) = some fs := by
  unfold decodeMessage encodeMessage
  exact decodeFields_encodeFields s fs hv _ (by
    have := costFields_le fs
    omega)

/-- Modelled from the spec (§4.4): the JSON value universe — numbers,
strings (as byte sequences), objects and ordered arrays. -/
inductive Json where
  | jNum (n : Nat)
  | jStr (bytes : List Nat)
  | jObj (kvs : List (String × Json))
  | jArr (items : List Json)

/-- Byte-sequence view of a declared name, used when a schema name becomes
a JSON string value. -/
def strBytes (s : String) : List Nat := s.data.map Char.toNat

/-- Camel-casing of a snake_case character sequence: each underscore is
dropped and the following character upper-cased. -/
def camelChars : Chars → Chars
  | [] => []
  | '_' :: c :: rest => c.toUpper :: camelChars rest
  | ['_'] => []
  | c :: rest => c :: camelChars rest

/-- Modelled from the spec (§4.4): the configurable key style — the
declared schema field name when preserveNames is set, else the camel-cased
variant. -/
def jsonFieldName (preserveNames : Bool) (nm : String) : String :=
  if preserveNames then nm else String.mk (camelChars nm.data)

/-- The symbolic name of an enum constant, when the integer is in the
closed set. -/
def findConstName : List (String × Nat) → Nat → Option String
  | [], _ => none
  | (nm, val) :: cs, n => if val = n then some nm else findConstName cs n

/-- The integer of an enum constant found by its (byte-encoded) symbolic
name. -/
def findConstValue : List (String × Nat) → List Nat → Option Nat
  | [], _ => none
  | (nm, val) :: cs, key =>
    if strBytes nm = key then some val else findConstValue cs key

mutual

/-- Modelled from the spec (§4.4): JSON encoding of one value of declared
kind — enums by symbolic name with a raw-integer fallback for unknown
values, nested messages as nested objects, repeated fields as ordered
arrays.  The jNum 0 fallback for a kind/value mismatch is unreachable on
valid instances. -/
def encodeJsonElem (style : Bool) : FKind → Value → Json
  | .kInt, .vInt n => .jNum n
  | .kEnum cs, .vEnum n =>
    match findConstName cs n with
    | some nm => .jStr (strBytes nm)
    | none => .jNum n
  | .kStr, .vStr bs => .jStr bs
  | .kMsg s, .vMsg fs => .jObj (encodeJsonFields style s fs)
  | .kRep k, .vRep vs => .jArr (encodeJsonElems style k vs)
  | _, _ => .jNum 0
termination_by structural k v => v

/-- Modelled from the spec (§4.4): a message as an object keyed by field
name in the configured style, absent fields omitted (only present fields
are stored, and only resolvable tags are emitted). -/
def encodeJsonFields (style : Bool) :
    FSchema → List (Nat × Value) → List (String × Json)
  | _, [] => []
  | s, (t, v) :: fs =>
    (match lookupField s t with
     | some (nm, k) => [(jsonFieldName style nm, encodeJsonElem style k v)]
     | none => []) ++ encodeJsonFields style s fs
termination_by structural s fs => fs

/-- The entries of a repeated field as an ordered JSON array. -/
def encodeJsonElems (style : Bool) : FKind → List Value → List Json
  | _, [] => []
  | k, v :: vs => encodeJsonElem style k v :: encodeJsonElems style k vs
termination_by structural k vs => vs

end

/-- Modelled from the spec (§4.4): resolve a JSON object key to a field
descriptor, comparing against the configured key style. -/
def findFieldByName (style : Bool) : FSchema → String → Option (Nat × FKind)
  | [], _ => none
  | (t, nm, k) :: s, key =>
    if jsonFieldName style nm = key then some (t, k)
    else findFieldByName style s key

mutual

/-- Modelled from the spec (§4.4): JSON decoding of one value of declared
kind; accepts the symbolic or the numeric enum spelling, keeping a numeric
spelling as the raw integer; None is the DecodeError of §7 on a
type-mismatched value. -/
def decodeJsonElem (style : Bool) : FKind → Json → Option Value
  | .kInt, .jNum n => some (.vInt n)
  | .kEnum _, .jNum n => some (.vEnum n)
  | .kEnum cs, .jStr key =>
    match findConstValue cs key with
    | some v => some (.vEnum v)
    | none => none
  | .kStr, .jStr bs => some (.vStr bs)
  | .kMsg s, .jObj kvs =>
    match decodeJsonFields style s kvs with
    | some fs => some (.vMsg fs)
    | none => none
  | .kRep k, .jArr items =>
    match decodeJsonElems style k items with
    | some vs => some (.vRep vs)
    | none => none
  | _, _ => none
termination_by structural k j => j

/-- Modelled from the spec (§4.4): decode an object's key/value pairs in
order; an unknown key is ignored, not an error (forward compatibility). -/
def decodeJsonFields (style : Bool) :
    FSchema → List (String × Json) → Option (List (Nat × Value))
  | _, [] => some []
  | s, (key, j) :: kvs =>
    match findFieldByName style s key with
    | some (t, k) =>
      match decodeJsonElem style k j with
      | some v =>
        match decodeJsonFields style s kvs with
        | some fs => some ((t, v) :: fs)
        | none => none
      | none => none
    | none => decodeJsonFields style s kvs
termination_by structural s kvs => kvs

/-- Decode a JSON array back into the entries of a repeated field. -/
def decodeJsonElems (style : Bool) : FKind → List Json → Option (List Value)
  | _, [] => some []
  | k, j :: items =>
    match decodeJsonElem style k j with
    | some v =>
      match decodeJsonElems style k items with
      | some vs => some (v :: vs)
      | none => none
    | none => none
termination_by structural k items => items

end

/-- Modelled from the spec (§4.4, §6): JSON-encode a message instance as an
object. -/
def encodeJsonMessage (style : Bool) (s : FSchema) (fs : List (Nat × Value)) : Json :=
  .jObj (encodeJsonFields style s fs)

/-- Modelled from the spec (§4.4, §6): JSON-decode a message against a
schema; anything but an object is a DecodeError. -/
def decodeJsonMessage (style : Bool) (s : FSchema) : Json → Option (List (Nat × Value))
  | .jObj kvs => decodeJsonFields style s kvs
  | _ => none

/-- Duplicate-freedom of a list, as a decidable check. -/
def distinct [DecidableEq α] : List α → Bool
  | [] => true
  | x :: xs => decide (x ∉ xs) && distinct xs

mutual

/-- Modelled from the spec (§3): well-formedness of a field kind — enum
constant names unambiguous (as encoded strings), nested messages
well-formed. -/
def wfKind : FKind → Bool
  | .kInt => true
  | .kStr => true
  | .kEnum cs => distinct (cs.map (fun c => strBytes c.1))
  | .kMsg s =>
    distinct (s.map (fun e => e.1)) &&
    distinct (s.map (fun e => jsonFieldName true e.2.1)) &&
    distinct (s.map (fun e => jsonFieldName false e.2.1)) &&
    wfEntries s
  | .kRep k => wfKind k
termination_by structural k => k

/-- Each field's kind is well-formed. -/
def wfEntries : FSchema → Bool
  | [] => true
  | (_, _, k) :: s => wfKind k && wfEntries s
termination_by structural s => s

end

/-- Modelled from the spec (§3): schema well-formedness — tags unique,
field names unambiguous as JSON keys under both key styles, recursively for
nested kinds. -/
def wfSchema (s : FSchema) : Bool := wfKind (.kMsg s)

theorem lookupField_mem (s : FSchema) (t : Nat) (nm : String) (k : FKind)
    (h : lookupField s t = some (nm, k)) : (t, nm, k) ∈ s := by
  induction s with
  | nil => simp [lookupField] at h
  | cons e s ih =>
    obtain ⟨t', nm', k'⟩ := e
    simp only [lookupField] at h
    by_cases ht : t = t'
    · rw [if_pos ht] at h
      injection h with h
      injection h with h1 h2
      subst ht h1 h2
      simp
    · rw [if_neg ht] at h
      exact List.mem_cons_of_mem _ (ih h)

theorem findConstName_mem (cs : List (String × Nat)) (n : Nat) (nm : String)
    (h : findConstName cs n = some nm) : (nm, n) ∈ cs := by
  induction cs with
  | nil => simp [findConstName] at h
  | cons c cs ih =>
    obtain ⟨nm', v'⟩ := c
    simp only [findConstName] at h
    by_cases hv : v' = n
    · rw [if_pos hv] at h
      injection h with h
      subst hv h
      simp
    · rw [if_neg hv] at h
      exact List.mem_cons_of_mem _ (ih h)

theorem findConstValue_of_findConstName (cs : List (String × Nat)) (n : Nat)
    (nm : String) (hdist : distinct (cs.map (fun c => strBytes c.1)) = true)
    (hfn : findConstName cs n = some nm) :
    findConstValue cs (strBytes nm) = some n := by
  induction cs with
  | nil => simp [findConstName] at hfn
  | cons c cs ih =>
    obtain ⟨nm', v'⟩ := c
    simp only [List.map_cons, distinct, Bool.and_eq_true, decide_eq_true_eq]
      at hdist
    simp only [findConstName] at hfn
    by_cases hv : v' = n
    · rw [if_pos hv] at hfn
      injection hfn with h
      subst hv h
      simp [findConstValue]
    · rw [if_neg hv] at hfn
      have hmem : (nm, n) ∈ cs := findConstName_mem cs n nm hfn
      have hbmem : strBytes nm ∈ cs.map (fun c => strBytes c.1) :=
        List.mem_map.mpr ⟨(nm, n), hmem, rfl⟩
      have hne : ¬(strBytes nm' = strBytes nm) := fun h => hdist.1 (h ▸ hbmem)
      simp only [findConstValue, if_neg hne]
      exact ih hdist.2 hfn

theorem findFieldByName_of_lookupField (style : Bool) (s : FSchema) (t : Nat)
    (nm : String) (k : FKind)
    (hdist : distinct (s.map (fun e => jsonFieldName style e.2.1)) = true)
    (hlk : lookupField s t = some (nm, k)) :
    findFieldByName style s (jsonFieldName style nm) = some (t, k) := by
  induction s with
  | nil => simp [lookupField] at hlk
  | cons e s ih =>
    obtain ⟨t', nm', k'⟩ := e
    simp only [List.map_cons, distinct, Bool.and_eq_true, decide_eq_true_eq]
      at hdist
    simp only [lookupField] at hlk
    by_cases ht : t = t'
    · rw [if_pos ht] at hlk
      injection hlk with h
      injection h with h1 h2
      subst ht h1 h2
      simp [findFieldByName]
    · rw [if_neg ht] at hlk
      have hmem : (t, nm, k) ∈ s := lookupField_mem s t nm k hlk
      have hbmem : jsonFieldName style nm ∈
          s.map (fun e => jsonFieldName style e.2.1) :=
        List.mem_map.mpr ⟨(t, nm, k), hmem, rfl⟩
      have hne : ¬(jsonFieldName style nm' = jsonFieldName style nm) :=
        fun h => hdist.1 (h ▸ hbmem)
      simp only [findFieldByName, if_neg hne]
      exact ih hdist.2 hlk

theorem wfEntries_lookupField (s : FSchema) (t : Nat) (nm : String) (k : FKind)
    (hent : wfEntries s = true) (hlk : lookupField s t = some (nm, k)) :
    wfKind k = true := by
  induction s with
  | nil => simp [lookupField] at hlk
  | cons e s ih =>
    obtain ⟨t', nm', k'⟩ := e
    simp only [wfEntries, Bool.and_eq_true] at hent
    simp only [lookupField] at hlk
    by_cases ht : t = t'
    · rw [if_pos ht] at hlk
      injection hlk with h
      injection h with h1 h2
      subst h2
      exact hent.1
    · rw [if_neg ht] at hlk
      exact ih hent.2 hlk

mutual

theorem decodeJson_encodeJson_elem (style : Bool) (k : FKind) (v : Value)
    (hk : wfKind k = true) (hv : validElem k v = true) :
    decodeJsonElem style k (encodeJsonElem style k v) = some v := by
  cases k <;> cases v
  case kInt.vInt n => simp [encodeJsonElem, decodeJsonElem]
  case kEnum.vEnum cs n =>
    simp only [wfKind] at hk
    cases hfn : findConstName cs n with
    | none => simp [encodeJsonElem, decodeJsonElem, hfn]
    | some nm =>
      simp only [encodeJsonElem, hfn]
      simp only [decodeJsonElem,
        findConstValue_of_findConstName cs n nm hk hfn]
  case kStr.vStr bs => simp [encodeJsonElem, decodeJsonElem]
  case kMsg.vMsg s fs =>
    simp only [validElem] at hv
    simp only [encodeJsonElem, decodeJsonElem,
      decodeJson_encodeJson_fields style s fs hk hv]
  case kRep.vRep k' vs =>
    simp only [validElem] at hv
    simp only [wfKind] at hk
    simp only [encodeJsonElem, decodeJsonElem,
      decodeJson_encodeJson_elems style k' vs hk hv]
  all_goals simp [validElem] at hv

theorem decodeJson_encodeJson_fields (style : Bool) (s : FSchema)
    (fs : List (Nat × Value)) (hk : wfKind (.kMsg s) = true)
    (hv : validFields s fs = true) :
    decodeJsonFields style s (encodeJsonFields style s fs) = some fs := by
  cases fs with
  | nil => simp [encodeJsonFields, decodeJsonFields]
  | cons fv fs' =>
    obtain ⟨t, v⟩ := fv
    simp only [validFields, Bool.and_eq_true] at hv
    obtain ⟨hv1, hv2⟩ := hv
    cases hlk : lookupField s t with
    | none => rw [hlk] at hv1; simp at hv1
    | some nk =>
      obtain ⟨nm, k⟩ := nk
      rw [hlk] at hv1
      have hv1' : validElem k v = true := hv1
      have hkmsg := hk
      simp only [wfKind, Bool.and_eq_true] at hkmsg
      obtain ⟨⟨⟨htags, hsty1⟩, hsty0⟩, hent⟩ := hkmsg
      have hsty : distinct (s.map (fun e => jsonFieldName style e.2.1)) = true := by
        cases style
        · exact hsty0
        · exact hsty1
      have hfind := findFieldByName_of_lookupField style s t nm k hsty hlk
      have hwfk : wfKind k = true := wfEntries_lookupField s t nm k hent hlk
      simp only [encodeJsonFields, hlk, List.singleton_append]
      simp only [decodeJsonFields, hfind,
        decodeJson_encodeJson_elem style k v hwfk hv1',
        decodeJson_encodeJson_fields style s fs' hk hv2]

theorem decodeJson_encodeJson_elems (style : Bool) (k : FKind) (vs : List Value)
    (hk : wfKind k = true) (hv : validElems k vs = true) :
    decodeJsonElems style k (encodeJsonElems style k vs) = some vs := by
  cases vs with
  | nil => simp [encodeJsonElems, decodeJsonElems]
  | cons v vs' =>
    simp only [validElems, Bool.and_eq_true] at hv
    simp only [encodeJsonElems, decodeJsonElems,
      decodeJson_encodeJson_elem style k v hk hv.1,
      decodeJson_encodeJson_elems style k vs' hk hv.2]

end

/-- Modelled from the spec (§8): the JSON round-trip — decoding the JSON
encoding of any valid Value Model instance against a well-formed schema
yields the instance back, structurally equal, under either key style. -/
theorem decodeJsonMessage_encodeJsonMessage (style : Bool) (s : FSchema)
    (fs : List (Nat × Value)) (hs : wfSchema s = true)
    (hv : validFields s fs = true) :
    decodeJsonMessage style s (encodeJsonMessage style s fs) = some fs := by
  show decodeJsonFields style s (encodeJsonFields style s fs) = some fs
  exact decodeJson_encodeJson_fields style s fs hs hv

/-! ### Part 3: the python writer example -/

/-- A protobuf repeated-field container: a sequence with append semantics
(the .add()/.append() calls of the writer) preserving insertion order. -/
abbrev RepeatedField (α : Type) : Type := List α

/-- One append to a repeated field, as performed by .add() / .append(). -/
def RepeatedField.add {α : Type} (r : RepeatedField α) (x : α) : RepeatedField α :=
  r ++ [x]

/-- The Timestamp message of the langnet schema as used by the writer
(seconds and nanos from datetime.utcnow()). -/
structure Timestamp where
  seconds : Nat
  nanos : Nat

/-- The SearchRequest message as populated by the writer. -/
structure SearchRequest where
  query : String
  page_number : Nat
  results_per_page : Nat

/-- One SearchResponse result entry as populated by the writer. -/
structure SearchResult where
  id : String
  title : String
  url : String
  snippet : String
  metadata : List (String × String)

/-- The SearchResponse message as populated by the writer. -/
structure SearchResponse where
  total_results : Nat
  page_number : Nat
  results : RepeatedField SearchResult

/-- The User message as populated by the writer. -/
structure User where
  id : String
  username : String
  email : String
  roles : RepeatedField String
  preferences : List (String × String)
  created_at : Option Timestamp
  updated_at : Option Timestamp

/-- The Config message as populated by the writer. -/
structure Config where
  settings : List (String × String)
  enabled_features : RepeatedField String
  last_updated : Option Timestamp

/-- The Batch message as populated by the writer. -/
structure Batch where
  batch_id : String
  searches : RepeatedField SearchRequest
  users : RepeatedField User

/-- The Event.EventType enum; only SEARCH is used by the writer, the
remaining members are not visible in the given material. -/
inductive EventType where
  | UNKNOWN
  | SEARCH

/-- Modelled from the spec: enum constants are named integers; UNKNOWN is
the zero default and SEARCH the first named value. -/
def eventTypeVal : EventType → Nat
  | .UNKNOWN => 0
  | .SEARCH => 1

/-- The Event message as populated by the writer. -/
structure Event where
  type : EventType
  id : String
  data : List (String × String)
  occurred_at : Option Timestamp
  source : String

/-- Embedding of create_search_request. -/
def create_search_request : SearchRequest :=
  { query := "protocol buffers python zig"
    page_number := 1
    results_per_page := 20 }

/-- The literal results list of create_search_response. -/
def searchResponseResultsData : List SearchResult :=
  [ { id := "result-1"
      title := "Protocol Buffers Documentation"
      url := "https://protobuf.dev"
      snippet := "Official Protocol Buffers documentation"
      metadata := [("source", "official"), ("language", "multiple")] },
    { id := "result-2"
      title := "Zig Programming Language"
      url := "https://ziglang.org"
      snippet := "Official Zig programming language website"
      metadata := [("source", "official"), ("language", "zig")] },
    { id := "result-3"
      title := "Python Protocol Buffers Guide"
      url := "https://developers.google.com/protocol-buffers/docs/pythontutorial"
      snippet := "Using Protocol Buffers with Python"
      metadata := [("source", "google"), ("language", "python")] } ]

/-- Embedding of create_search_response: total_results and page_number set
up front, then each result of the literal list appended in order. -/
def create_search_response : SearchResponse :=
  let response : SearchResponse :=
    { total_results := 3, page_number := 1, results := [] }
  { response with
      results := searchResponseResultsData.foldl RepeatedField.add response.results }

/-- Embedding of create_user; the timestamp is a parameter standing for
datetime.utcnow(). -/
def create_user (now : Timestamp) : User :=
  { id := "user-123"
    username := "testuser"
    email := "test@example.com"
    roles := ["user", "admin"]
    preferences := [("theme", "dark"), ("language", "en")]
    created_at := some now
    updated_at := some now }

/-- Embedding of create_config. -/
def create_config (now : Timestamp) : Config :=
  { settings := [("api_endpoint", "https://api.example.com"),
                 ("timeout", "30"), ("retries", "3")]
    enabled_features := ["search", "users", "analytics"]
    last_updated := some now }

/-- Embedding of create_batch: three searches appended by the first loop,
two users appended by the second, each built exactly as in the source. -/
def create_batch : Batch :=
  let batch : Batch := { batch_id := "batch-2025-01-15", searches := [], users := [] }
  let batch := (List.range 3).foldl (fun b i =>
    let s : SearchRequest := ⟨"search query " ++ toString i, 1, 10⟩
    { b with searches := b.searches.add s }) batch
  (List.range 2).foldl (fun b i =>
    let u : User := ⟨"batch-user-" ++ toString i, "user" ++ toString i,
      "user" ++ toString i ++ "@example.com",
      RepeatedField.add [] "user", [], none, none⟩
    { b with users := b.users.add u }) batch

/-- Embedding of create_event. -/
def create_event (now : Timestamp) : Event :=
  { type := .SEARCH
    id := "event-123"
    data := [("query", "test"), ("results", "3")]
    occurred_at := some now
    source := "python-writer" }

/-- Modelled from the spec: the langnet interface-definition file is not in
the visible material, so field tags are assigned in declaration order of
the message fields the writer populates (tags unique and stable, §3). -/
def timestampSchema : FSchema := [(1, "seconds", .kInt), (2, "nanos", .kInt)]

/-- Map fields (string-keyed string values in every writer use) encode as
repeated key/value entry messages. -/
def mapEntrySchema : FSchema := [(1, "key", .kStr), (2, "value", .kStr)]

/-- The kind of a map field: a repeated entry-message field. -/
def mapKind : FKind := .kRep (.kMsg mapEntrySchema)

/-- Modelled from the spec: SearchRequest field descriptors. -/
def searchRequestSchema : FSchema :=
  [(1, "query", .kStr), (2, "page_number", .kInt), (3, "results_per_page", .kInt)]

/-- Modelled from the spec: SearchResult field descriptors. -/
def searchResultSchema : FSchema :=
  [(1, "id", .kStr), (2, "title", .kStr), (3, "url", .kStr),
   (4, "snippet", .kStr), (5, "metadata", mapKind)]

/-- Modelled from the spec: SearchResponse field descriptors. -/
def searchResponseSchema : FSchema :=
  [(1, "results", .kRep (.kMsg searchResultSchema)),
   (2, "total_results", .kInt), (3, "page_number", .kInt)]

/-- Modelled from the spec: User field descriptors. -/
def userSchema : FSchema :=
  [(1, "id", .kStr), (2, "username", .kStr), (3, "email", .kStr),
   (4, "roles", .kRep .kStr), (5, "preferences", mapKind),
   (6, "created_at", .kMsg timestampSchema),
   (7, "updated_at", .kMsg timestampSchema)]

/-- Modelled from the spec: Config field descriptors. -/
def configSchema : FSchema :=
  [(1, "settings", mapKind), (2, "enabled_features", .kRep .kStr),
   (3, "last_updated", .kMsg timestampSchema)]

/-- Modelled from the spec: Batch field descriptors. -/
def batchSchema : FSchema :=
  [(1, "batch_id", .kStr), (2, "searches", .kRep (.kMsg searchRequestSchema)),
   (3, "users", .kRep (.kMsg userSchema))]

/-- The EventType enum constants visible in the material. -/
def eventTypeConsts : List (String × Nat) := [("UNKNOWN", 0), ("SEARCH", 1)]

/-- Modelled from the spec: Event field descriptors. -/
def eventSchema : FSchema :=
  [(1, "type", .kEnum eventTypeConsts), (2, "id", .kStr), (3, "data", mapKind),
   (4, "occurred_at", .kMsg timestampSchema), (5, "source", .kStr)]

/-- A string value in the Value Model, by its bytes. -/
def strV (s : String) : Value := .vStr (strBytes s)

/-- A string field, omitted when it holds the empty default (§4.3
omission). -/
def strFld (tag : Nat) (s : String) : List (Nat × Value) :=
  if s.isEmpty then [] else [(tag, strV s)]

/-- An integer field, omitted when it holds the zero default. -/
def intFld (tag : Nat) (n : Nat) : List (Nat × Value) :=
  if n = 0 then [] else [(tag, .vInt n)]

/-- An enum field, omitted when it holds the zero default. -/
def enumFld (tag : Nat) (n : Nat) : List (Nat × Value) :=
  if n = 0 then [] else [(tag, .vEnum n)]

/-- A repeated field, omitted when empty. -/
def repFld (tag : Nat) (vs : List Value) : List (Nat × Value) :=
  if vs.isEmpty then [] else [(tag, .vRep vs)]

/-- Map entries as key/value entry messages. -/
def mapEntries (m : List (String × String)) : List Value :=
  m.map (fun kv => .vMsg (strFld 1 kv.1 ++ strFld 2 kv.2))

/-- Timestamp as Value Model fields. -/
def timestampFields (ts : Timestamp) : List (Nat × Value) :=
  intFld 1 ts.seconds ++ intFld 2 ts.nanos

/-- An optional nested timestamp field, omitted when absent. -/
def optTimestampFld (tag : Nat) : Option Timestamp → List (Nat × Value)
  | some ts => [(tag, .vMsg (timestampFields ts))]
  | none => []

/-- SearchRequest as Value Model fields. -/
def searchRequestFields (m : SearchRequest) : List (Nat × Value) :=
  strFld 1 m.query ++ intFld 2 m.page_number ++ intFld 3 m.results_per_page

/-- SearchResult as Value Model fields. -/
def searchResultFields (m : SearchResult) : List (Nat × Value) :=
  strFld 1 m.id ++ strFld 2 m.title ++ strFld 3 m.url ++ strFld 4 m.snippet ++
    repFld 5 (mapEntries m.metadata)

/-- SearchResponse as Value Model fields. -/
def searchResponseFields (m : SearchResponse) : List (Nat × Value) :=
  repFld 1 (m.results.map (fun r => .vMsg (searchResultFields r))) ++
    intFld 2 m.total_results ++ intFld 3 m.page_number

/-- User as Value Model fields. -/
def userFields (m : User) : List (Nat × Value) :=
  strFld 1 m.id ++ strFld 2 m.username ++ strFld 3 m.email ++
    repFld 4 (m.roles.map strV) ++ repFld 5 (mapEntries m.preferences) ++
    optTimestampFld 6 m.created_at ++ optTimestampFld 7 m.updated_at

/-- Config as Value Model fields. -/
def configFields (m : Config) : List (Nat × Value) :=
  repFld 1 (mapEntries m.settings) ++
    repFld 2 (m.enabled_features.map strV) ++ optTimestampFld 3 m.last_updated

/-- Batch as Value Model fields. -/
def batchFields (m : Batch) : List (Nat × Value) :=
  strFld 1 m.batch_id ++
    repFld 2 (m.searches.map (fun r => .vMsg (searchRequestFields r))) ++
    repFld 3 (m.users.map (fun u => .vMsg (userFields u)))

/-- Event as Value Model fields. -/
def eventFields (m : Event) : List (Nat × Value) :=
  enumFld 1 (eventTypeVal m.type) ++ strFld 2 m.id ++
    repFld 3 (mapEntries m.data) ++ optTimestampFld 4 m.occurred_at ++
    strFld 5 m.source

/-- The union of the message types the writer serializes. -/
inductive Message where
  | mSearchRequest (m : SearchRequest)
  | mSearchResponse (m : SearchResponse)
  | mUser (m : User)
  | mConfig (m : Config)
  | mBatch (m : Batch)
  | mEvent (m : Event)

/-- The schema of a message. -/
def messageSchema : Message → FSchema
  | .mSearchRequest _ => searchRequestSchema
  | .mSearchResponse _ => searchResponseSchema
  | .mUser _ => userSchema
  | .mConfig _ => configSchema
  | .mBatch _ => batchSchema
  | .mEvent _ => eventSchema

/-- The Value Model instance of a message. -/
def messageFields : Message → List (Nat × Value)
  | .mSearchRequest m => searchRequestFields m
  | .mSearchResponse m => searchResponseFields m
  | .mUser m => userFields m
  | .mConfig m => configFields m
  | .mBatch m => batchFields m
  | .mEvent m => eventFields m

/-- message.SerializeToString(), modelled via the Part 2 binary encoder
(the generated codec is not in the visible material; the spec says the
encoding is deterministic, and a pure function models that). -/
def serializeMessage (m : Message) : List Nat :=
  encodeMessage (messageFields m)

/-- MessageToJson with preserving_proto_field_name=True (style true) and
the MessageToDict camel-cased default (style false), modelled via the
Part 2 JSON encoder. -/
def messageToJson (preserveNames : Bool) (m : Message) : Json :=
  encodeJsonMessage preserveNames (messageSchema m) (messageFields m)

/-- The (filename, message) pairs enumerated by write_binary_files. -/
def binaryMessages (now : Timestamp) : List (String × Message) :=
  [("search_request.bin", .mSearchRequest create_search_request),
   ("search_response.bin", .mSearchResponse create_search_response),
   ("user.bin", .mUser (create_user now)),
   ("config.bin", .mConfig (create_config now)),
   ("batch.bin", .mBatch create_batch),
   ("event.bin", .mEvent (create_event now))]

/-- Embedding of write_binary_files: the first component is the list of
file writes (path under output/, bytes of message.SerializeToString()); the
second is the printed byte count of each file's second SerializeToString()
call. -/
def write_binary_files (now : Timestamp) :
    List (String × List Nat) × List (String × Nat) :=
  ((binaryMessages now).map (fun fm => ("output/" ++ fm.1, serializeMessage fm.2)),
   (binaryMessages now).map (fun fm =>
     ("output/" ++ fm.1, (serializeMessage fm.2).length)))

/-- The (filename, message) pairs enumerated by write_json_files. -/
def jsonMessages (now : Timestamp) : List (String × Message) :=
  [("search_request.json", .mSearchRequest create_search_request),
   ("search_response.json", .mSearchResponse create_search_response),
   ("user.json", .mUser (create_user now)),
   ("config.json", .mConfig (create_config now)),
   ("batch.json", .mBatch create_batch),
   ("event.json", .mEvent (create_event now))]

/-- Embedding of write_json_files: per message, output/<filename> with the
field-name-preserving rendering and output/native_<filename> with the
camel-cased MessageToDict rendering. -/
def write_json_files (now : Timestamp) : List (String × Json) :=
  (jsonMessages now).foldr (fun fm acc =>
    ("output/" ++ fm.1, messageToJson true fm.2) ::
      ("output/native_" ++ fm.1, messageToJson false fm.2) :: acc) []

/-- The counts main prints after creating the sample messages. -/
def main_report (now : Timestamp) : Nat × Nat × Nat × Nat :=
  (create_search_response.results.length,
   (create_config now).settings.length,
   create_batch.searches.length,
   create_batch.users.length)

/-- binary_size in main's size comparison:
len(search_request.SerializeToString()). -/
def main_binary_size : Nat :=
  (serializeMessage (.mSearchRequest create_search_request)).length

/-! ### Helper lemmas for the claims -/

theorem encodeVarint_append_ne_nil (n : Nat) (l : List Nat) :
    encodeVarint n ++ l ≠ [] := by
  intro h
  have := encodeVarint_length_pos n
  rw [List.append_eq_nil] at h
  simp [h.1] at this

/-- The value the decoder preserves for a field whose tag is unknown: the
raw varint for wire kind 0, the raw length-delimited payload for wire
kind 2. -/
def preservedOf : Value → Value
  | .vInt n => .vUnknownV n
  | .vEnum n => .vUnknownV n
  | .vUnknownV n => .vUnknownV n
  | .vStr bs => .vUnknownL bs
  | .vMsg fs => .vUnknownL (encodeFields fs)
  | .vRep vs => .vUnknownL (encodeElems vs)
  | .vUnknownL raw => .vUnknownL raw

theorem decodeFields_unknown_varint (s : FSchema) (t n : Nat) (bs : List Nat)
    (fuel : Nat) (fs : List (Nat × Value)) (hmiss : lookupField s t = none)
    (hrest : decodeFields fuel s bs = some fs) :
    decodeFields (fuel + 1) s
      (encodeVarint (t * 8 + 0) ++ (encodeVarint n ++ bs)) =
      some ((t, .vUnknownV n) :: fs) := by
  have hne : encodeVarint (t * 8 + 0) ++ (encodeVarint n ++ bs) ≠ [] :=
    encodeVarint_append_ne_nil _ _
  have hdiv : (t * 8 + 0) / 8 = t := by omega
  have hmod : (t * 8 + 0) % 8 = 0 := by omega
  simp only [decodeFields, if_neg hne, decodeVarint_encodeVarint, hdiv, hmod,
    hmiss, hrest, eq_self_iff_true, ite_true]

theorem decodeFields_unknown_len (s : FSchema) (t : Nat) (body bs : List Nat)
    (fuel : Nat) (fs : List (Nat × Value)) (hmiss : lookupField s t = none)
    (hrest : decodeFields fuel s bs = some fs) :
    decodeFields (fuel + 1) s
      (encodeVarint (t * 8 + 2) ++ (encodeVarint body.length ++ (body ++ bs))) =
      some ((t, .vUnknownL body) :: fs) := by
  have hne : encodeVarint (t * 8 + 2) ++ (encodeVarint body.length ++ (body ++ bs)) ≠ [] :=
    encodeVarint_append_ne_nil _ _
  have hdiv : (t * 8 + 2) / 8 = t := by omega
  have hmod0 : ¬((t * 8 + 2) % 8 = 0) := by omega
  have hmod2 : (t * 8 + 2) % 8 = 2 := by omega
  simp only [decodeFields, if_neg hne, decodeVarint_encodeVarint, hdiv, hmod0,
    hmod2, hmiss, eq_self_iff_true, ite_true, ite_false, if_false,
    List.length_append, Nat.le_add_right, List.take_left, List.drop_left,
    hrest]
  simp

theorem xs_foldl_add (α : Type) (xs : List α) (r : RepeatedField α) :
    xs.foldl RepeatedField.add r = r ++ xs := by
  induction xs generalizing r with
  | nil => simp
  | cons x xs ih => simp [RepeatedField.add, ih]

/-- The JSON key a field tag gets under a key style (its declared name run
through the style). -/
def fieldKeyName (style : Bool) (s : FSchema) (t : Nat) : String :=
  jsonFieldName style (((lookupField s t).map (fun nk => nk.1)).getD "")

theorem encodeJsonFields_keys (style : Bool) (s : FSchema)
    (fs : List (Nat × Value)) (hv : validFields s fs = true) :
    (encodeJsonFields style s fs).map Prod.fst =
      fs.map (fun tv => fieldKeyName style s tv.1) := by
  induction fs with
  | nil => simp [encodeJsonFields]
  | cons fv fs' ih =>
    obtain ⟨t, v⟩ := fv
    simp only [validFields, Bool.and_eq_true] at hv
    cases hlk : lookupField s t with
    | none =>
      rw [hlk] at hv
      simp at hv
    | some nk =>
      simp only [encodeJsonFields, hlk, List.singleton_append, List.map_cons]
      rw [ih hv.2]
      simp [fieldKeyName, hlk]

/-! ### The claims -/

/-- C2: write_binary_files writes, for each of the six (filename, message)
pairs it enumerates, the file output/<filename> whose contents are exactly
the serialized bytes of the message, and write_json_files writes the
corresponding JSON text files (output/<name>.json together with their
native_ variants) — the writer builds the sample messages, serializes each
to both binary and JSON, and writes the results to disk. -/
theorem write_files_write_serialized_messages (now : Timestamp) :
    (write_binary_files now).1 =
      [("output/search_request.bin", serializeMessage (.mSearchRequest create_search_request)),
       ("output/search_response.bin", serializeMessage (.mSearchResponse create_search_response)),
       ("output/user.bin", serializeMessage (.mUser (create_user now))),
       ("output/config.bin", serializeMessage (.mConfig (create_config now))),
       ("output/batch.bin", serializeMessage (.mBatch create_batch)),
       ("output/event.bin", serializeMessage (.mEvent (create_event now)))] ∧
    write_json_files now =
      [("output/search_request.json", messageToJson true (.mSearchRequest create_search_request)),
       ("output/native_search_request.json", messageToJson false (.mSearchRequest create_search_request)),
       ("output/search_response.json", messageToJson true (.mSearchResponse create_search_response)),
       ("output/native_search_response.json", messageToJson false (.mSearchResponse create_search_response)),
       ("output/user.json", messageToJson true (.mUser (create_user now))),
       ("output/native_user.json", messageToJson false (.mUser (create_user now))),
       ("output/config.json", messageToJson true (.mConfig (create_config now))),
       ("output/native_config.json", messageToJson false (.mConfig (create_config now))),
       ("output/batch.json", messageToJson true (.mBatch create_batch)),
       ("output/native_batch.json", messageToJson false (.mBatch create_batch)),
       ("output/event.json", messageToJson true (.mEvent (create_event now))),
       ("output/native_event.json", messageToJson false (.mEvent (create_event now)))] :=
  ⟨rfl, rfl⟩

/-- C3: JSON encoding produces an object keyed by field name, with the key
style configurable between the declared schema name and the camel-cased
variant; and write_json_files writes two renderings per message —
output/<filename> with declared names (MessageToJson with
preserving_proto_field_name=True) and output/native_<filename> with the
camel-cased default (MessageToDict). -/
theorem json_object_keyed_by_field_name (style : Bool) (s : FSchema)
    (fs : List (Nat × Value)) (hv : validFields s fs = true) (now : Timestamp) :
    ((encodeJsonFields style s fs).map Prod.fst =
      fs.map (fun tv => fieldKeyName style s tv.1)) ∧
    (∀ fm ∈ jsonMessages now,
      ("output/" ++ fm.1, messageToJson true fm.2) ∈ write_json_files now ∧
      ("output/native_" ++ fm.1, messageToJson false fm.2) ∈ write_json_files now) := by
  refine ⟨encodeJsonFields_keys style s fs hv, ?_⟩
  intro fm hfm
  simp only [jsonMessages, List.mem_cons, List.not_mem_nil, or_false] at hfm
  rcases hfm with h | h | h | h | h | h <;> subst h <;>
    exact ⟨by simp [write_json_files, jsonMessages],
           by simp [write_json_files, jsonMessages]⟩

/-- Witness for C3 at the sample SearchRequest instance. -/
theorem json_object_keyed_by_field_name_witness :
    validFields searchRequestSchema (searchRequestFields create_search_request) = true ∧
    (((encodeJsonFields true searchRequestSchema
         (searchRequestFields create_search_request)).map Prod.fst =
       (searchRequestFields create_search_request).map
         (fun tv => fieldKeyName true searchRequestSchema tv.1)) ∧
     (∀ fm ∈ jsonMessages ⟨1736899200, 0⟩,
       ("output/" ++ fm.1, messageToJson true fm.2) ∈ write_json_files ⟨1736899200, 0⟩ ∧
       ("output/native_" ++ fm.1, messageToJson false fm.2) ∈
         write_json_files ⟨1736899200, 0⟩)) :=
  ⟨by decide, json_object_keyed_by_field_name true searchRequestSchema
      (searchRequestFields create_search_request) (by decide) ⟨1736899200, 0⟩⟩

/-- C4: for every valid Value Model instance (a message's fields, valid
against a well-formed schema), decoding the binary encoding yields a
structurally equal instance, and decoding the JSON encoding (under either
key style) yields a structurally equal instance. -/
theorem value_model_round_trip (s : FSchema) (fs : List (Nat × Value))
    (style : Bool) (hs : wfSchema s = true) (hv : validFields s fs = true) :
    decodeMessage s (encodeMessage fs) = some fs ∧
    decodeJsonMessage style s (encodeJsonMessage style s fs) = some fs :=
  ⟨decodeMessage_encodeMessage s fs hv,
   decodeJsonMessage_encodeJsonMessage style s fs hs hv⟩

/-- The spec's example schema: a string field, a nested sub-message and a
repeated string field. -/
def exampleSchema : FSchema :=
  [(1, "id", .kStr), (2, "sub", .kMsg [(1, "name", .kStr)]),
   (3, "tags", .kRep .kStr)]

/-- The spec's example message: one nested sub-message and the repeated
strings a, b, c. -/
def exampleValue : List (Nat × Value) :=
  [(1, strV "result-1"), (2, .vMsg [(1, strV "nested")]),
   (3, .vRep [strV "a", strV "b", strV "c"])]

/-- Witness for C4 at the spec's example message. -/
theorem value_model_round_trip_witness :
    wfSchema exampleSchema = true ∧
    validFields exampleSchema exampleValue = true ∧
    (decodeMessage exampleSchema (encodeMessage exampleValue) = some exampleValue ∧
     decodeJsonMessage true exampleSchema
       (encodeJsonMessage true exampleSchema exampleValue) = some exampleValue) :=
  ⟨by decide, by decide,
   value_model_round_trip exampleSchema exampleValue true (by decide) (by decide)⟩

/-- C5: decoding tolerates inputs with fields or enum integers unknown to
the schema rather than failing: a binary field whose tag the schema lacks
is preserved verbatim (its re-encoding is byte-identical) while the known
fields still decode; an unknown JSON key is ignored; an enum integer
outside the closed set is kept as the raw integer in both binary and JSON;
and JSON-decoding an object with id "result-1" plus an unknownField key
against a schema lacking unknownField succeeds with id set. -/
theorem decode_tolerates_unknown (s : FSchema) (t : Nat) (v : Value)
    (fs : List (Nat × Value)) (hmiss : lookupField s t = none)
    (hv : validFields s fs = true) (style : Bool) (s2 : FSchema) (key : String)
    (j : Json) (kvs : List (String × Json))
    (hkey : findFieldByName style s2 key = none)
    (cs : List (String × Nat)) (n : Nat) (fuel : Nat) (rest : List Nat) :
    (decodeMessage s (encodeFields ((t, v) :: fs)) = some ((t, preservedOf v) :: fs) ∧
     encodeFields [(t, preservedOf v)] = encodeFields [(t, v)]) ∧
    decodeJsonFields style s2 ((key, j) :: kvs) = decodeJsonFields style s2 kvs ∧
    decodeElem (fuel + 1) (.kEnum cs) (encodeVarint n ++ rest) = some (.vEnum n, rest) ∧
    decodeJsonElem style (.kEnum cs) (.jNum n) = some (.vEnum n) ∧
    decodeJsonMessage true [(1, "id", .kStr)]
      (.jObj [("id", .jStr (strBytes "result-1")), ("unknownField", .jNum 42)]) =
      some [(1, strV "result-1")] := by
  refine ⟨⟨?_, ?_⟩, ?_, ?_, ?_, ?_⟩
  · show decodeFields (2 * (encodeFields ((t, v) :: fs)).length + 1) s
      (encodeFields ((t, v) :: fs)) = _
    have hlen : (encodeFields ((t, v) :: fs)).length =
        (encodeVarint (t * 8 + wireOfValue v)).length + ((encodeElem v).length +
          (encodeFields fs).length) := by
      simp [encodeFields]
    have hrest : decodeFields (2 * (encodeFields ((t, v) :: fs)).length) s
        (encodeFields fs) = some fs := by
      apply decodeFields_encodeFields s fs hv
      have h1 := costFields_le fs
      have h3 := encodeVarint_length_pos (t * 8 + wireOfValue v)
      omega
    cases v with
    | vInt m =>
      have h := decodeFields_unknown_varint s t m (encodeFields fs)
        (2 * (encodeFields ((t, .vInt m) :: fs)).length) fs hmiss hrest
      simpa [encodeFields, wireOfValue, encodeElem, preservedOf,
        List.append_assoc] using h
    | vEnum m =>
      have h := decodeFields_unknown_varint s t m (encodeFields fs)
        (2 * (encodeFields ((t, .vEnum m) :: fs)).length) fs hmiss hrest
      simpa [encodeFields, wireOfValue, encodeElem, preservedOf,
        List.append_assoc] using h
    | vUnknownV m =>
      have h := decodeFields_unknown_varint s t m (encodeFields fs)
        (2 * (encodeFields ((t, .vUnknownV m) :: fs)).length) fs hmiss hrest
      simpa [encodeFields, wireOfValue, encodeElem, preservedOf,
        List.append_assoc] using h
    | vStr bs2 =>
      have h := decodeFields_unknown_len s t bs2 (encodeFields fs)
        (2 * (encodeFields ((t, .vStr bs2) :: fs)).length) fs hmiss hrest
      simpa [encodeFields, wireOfValue, encodeElem, preservedOf,
        List.append_assoc] using h
    | vUnknownL raw =>
      have h := decodeFields_unknown_len s t raw (encodeFields fs)
        (2 * (encodeFields ((t, .vUnknownL raw) :: fs)).length) fs hmiss hrest
      simpa [encodeFields, wireOfValue, encodeElem, preservedOf,
        List.append_assoc] using h
    | vMsg fs2 =>
      have h := decodeFields_unknown_len s t (encodeFields fs2) (encodeFields fs)
        (2 * (encodeFields ((t, .vMsg fs2) :: fs)).length) fs hmiss hrest
      simpa [encodeFields, wireOfValue, encodeElem, preservedOf,
        List.append_assoc] using h
    | vRep vs2 =>
      have h := decodeFields_unknown_len s t (encodeElems vs2) (encodeFields fs)
        (2 * (encodeFields ((t, .vRep vs2) :: fs)).length) fs hmiss hrest
      simpa [encodeFields, wireOfValue, encodeElem, preservedOf,
        List.append_assoc] using h
  · cases v <;> simp [encodeFields, preservedOf, wireOfValue, encodeElem]
  · simp only [decodeJsonFields, hkey]
  · simp [decodeElem, decodeVarint_encodeVarint]
  · simp [decodeJsonElem]
  · rfl

/-- The schema of the spec's unknown-key scenario. -/
def unknownSchemaEx : FSchema := [(1, "id", .kStr)]

/-- Witness for C5: an unknown varint field with tag 2 prepended to a valid
one-field message, the unknownField JSON key, and enum integer 7, which is
outside the modelled EventType constants. -/
theorem decode_tolerates_unknown_witness :
    lookupField unknownSchemaEx 2 = none ∧
    validFields unknownSchemaEx [(1, strV "x")] = true ∧
    findFieldByName true unknownSchemaEx "unknownField" = none ∧
    ((decodeMessage unknownSchemaEx (encodeFields ((2, Value.vInt 42) :: [(1, strV "x")])) =
        some ((2, preservedOf (Value.vInt 42)) :: [(1, strV "x")]) ∧
      encodeFields [(2, preservedOf (Value.vInt 42))] = encodeFields [(2, Value.vInt 42)]) ∧
     decodeJsonFields true unknownSchemaEx (("unknownField", Json.jNum 42) :: []) =
       decodeJsonFields true unknownSchemaEx [] ∧
     decodeElem (4 + 1) (.kEnum eventTypeConsts) (encodeVarint 7 ++ [9]) =
       some (.vEnum 7, [9]) ∧
     decodeJsonElem true (.kEnum eventTypeConsts) (.jNum 7) = some (.vEnum 7) ∧
     decodeJsonMessage true [(1, "id", .kStr)]
       (.jObj [("id", .jStr (strBytes "result-1")), ("unknownField", .jNum 42)]) =
       some [(1, strV "result-1")]) :=
  ⟨rfl, by decide, rfl,
   decode_tolerates_unknown unknownSchemaEx 2 (Value.vInt 42) [(1, strV "x")] rfl
     (by decide) true unknownSchemaEx "unknownField" (Json.jNum 42) [] rfl
     eventTypeConsts 7 4 [9]⟩

/-- C6: binary encoding is deterministic — serialization is a pure function
of the message value (two encodings of the same value are the same byte
string), so for each message written by write_binary_files the printed byte
count, computed by a second SerializeToString call, equals the size of the
file written. -/
theorem binary_encoding_deterministic (now : Timestamp) (m : Message) :
    serializeMessage m = serializeMessage m ∧
    (write_binary_files now).2 =
      (write_binary_files now).1.map (fun pr => (pr.1, pr.2.length)) :=
  ⟨rfl, rfl⟩

/-- C7: repeated fields preserve insertion order: folding appends of any
sequence onto a repeated field stores exactly that sequence in order after
the existing entries; concretely batch.searches holds the three queries
"search query 0/1/2" in order and user.roles equals ["user", "admin"]. -/
theorem repeated_fields_preserve_insertion_order (α : Type) (r : RepeatedField α)
    (xs : List α) (now : Timestamp) :
    xs.foldl RepeatedField.add r = r ++ xs ∧
    create_batch.searches.map SearchRequest.query =
      ["search query 0", "search query 1", "search query 2"] ∧
    (create_user now).roles = ["user", "admin"] :=
  ⟨xs_foldl_add α xs r, by decide, rfl⟩

/-- C8: the size-ratio division in main cannot divide by zero: the sample
SearchRequest has a non-empty query and non-zero page fields, and its
binary serialization is non-empty, so binary_size is positive when main
computes json_size/binary_size. -/
theorem main_binary_size_positive :
    create_search_request.query ≠ "" ∧
    create_search_request.page_number = 1 ∧
    create_search_request.results_per_page = 20 ∧
    0 < main_binary_size :=
  ⟨by decide, rfl, rfl, by decide⟩

/-- C9: the sample messages are internally consistent counts: the
SearchResponse's total_results equals the number of results actually
appended (3), the Batch holds exactly 3 searches and 2 users, and these are
exactly the counts main reports. -/
theorem sample_message_counts (now : Timestamp) :
    create_search_response.total_results = create_search_response.results.length ∧
    create_search_response.total_results = 3 ∧
    create_batch.searches.length = 3 ∧
    create_batch.users.length = 2 ∧
    main_report now =
      (create_search_response.results.length, (create_config now).settings.length,
       create_batch.searches.length, create_batch.users.length) :=
  ⟨rfl, rfl, rfl, rfl, rfl⟩
